import Mathlib

/-!
Verification development for the OItrainer repository (src/script.js and the
contest-integration module src/unnamed/part_000).

The JavaScript source is shallowly embedded: numbers become exact rationals
(`ℚ`), `Math.floor` becomes `Int.floor`, `Math.ceil` becomes `Int.ceil`,
`Math.round` becomes `round`, and JS `Set`s become duplicate-free lists.
Every call to a random draw (`uniform`, `uniformInt`, `normal`) is replaced
by an explicit parameter holding the drawn value, so each embedded function
is a deterministic function of its inputs and its draws.  The logistic
function `sigmoid` of the source uses `Math.exp`, which is transcendental;
it is abstracted as an explicit function parameter `sig : ℚ → ℚ`, and all
theorems about the scoring model are proved for every value of that
parameter.
-/

/-- `clamp(val, min, max)` from src/script.js line 155:
`Math.max(min, Math.min(max, val))`. -/
def clampQ (v lo hi : ℚ) : ℚ := max lo (min hi v)

/-- `clampInt(v, min, max)` from src/script.js line 156:
`Math.max(min, Math.min(max, Math.round(v)))`.  JS `Math.round` rounds
half-up, which is the Mathlib `round`. -/
def clampInt (v : ℚ) (lo hi : ℤ) : ℤ := max lo (min hi (round v))

/-- `KNOWLEDGE_WEIGHT` from src/script.js line 5. -/
def KNOWLEDGE_WEIGHT : ℚ := 0.6

/-- `ABILITY_WEIGHT` from src/script.js line 6. -/
def ABILITY_WEIGHT : ℚ := 0.4

/-- `ALPHA1` from src/script.js line 10. -/
def ALPHA1 : ℚ := 28

/-- `FATIGUE_FROM_PRESSURE` from src/script.js line 9. -/
def FATIGUE_FROM_PRESSURE : ℚ := 180

/-- The `Student` class of src/script.js (lines 181-239), restricted to the
fields that the embedded operations read or write.  The bookkeeping fields
`burnout_weeks`, `depression_count` and `high_pressure_weeks` are never read
by any embedded operation and are omitted. -/
structure Student where
  name : String
  thinking : ℚ
  coding : ℚ
  mental : ℚ
  knowledge_ds : ℚ
  knowledge_graph : ℚ
  knowledge_string : ℚ
  knowledge_math : ℚ
  knowledge_dp : ℚ
  pressure : ℚ
  comfort : ℚ
  sick_weeks : ℕ
  active : Bool
deriving DecidableEq

/-- `Student.getAbilityAvg` (src/script.js line 193). -/
def getAbilityAvg (s : Student) : ℚ := (s.thinking + s.coding + s.mental) / 3

/-- `Student.getKnowledgeTotal` (src/script.js line 194). -/
def getKnowledgeTotal (s : Student) : ℚ :=
  (s.knowledge_ds + s.knowledge_graph + s.knowledge_string + s.knowledge_math + s.knowledge_dp) / 5

/-- `Student.getComprehensiveAbility` (src/script.js lines 195-199). -/
def getComprehensiveAbility (s : Student) : ℚ :=
  ABILITY_WEIGHT * getAbilityAvg s + KNOWLEDGE_WEIGHT * getKnowledgeTotal s

/-- `Student.getMentalIndex` (src/script.js lines 200-204).  The source draws
`noise = normal(0, 3.0)`; the standard-normal draw is the parameter `zM`, so
the noise value is `zM * 3`. -/
def getMentalIndex (s : Student) (zM : ℚ) : ℚ :=
  clampQ (s.mental - ALPHA1 * (s.pressure / 100) * (1 - s.comfort / 100) + zM * 3) 0 100

/-- The `final_ratio` computed inside `Student.getPerformanceScore`
(src/script.js lines 206-217).  `sig` is the `sigmoid` of the source,
`zM` and `zP` are the standard-normal draws behind the `getMentalIndex` noise
and `random_factor = normal(0, sigma_performance)`. -/
def finalRatioOf (sig : ℚ → ℚ) (s : Student) (difficulty kv zM zP : ℚ) : ℚ :=
  let comprehensive := getComprehensiveAbility s
  let mentalIdx := getMentalIndex s zM
  let knowledgeBonus := kv * 2
  let effectiveAbility := comprehensive + knowledgeBonus
  let performanceR := sig ((effectiveAbility - difficulty) / 10)
  let stabilityFactor := mentalIdx / 100
  let baseNoise : ℚ := 0.05
  let sigmaPerformance := (100 - mentalIdx) / 200 + baseNoise
  let randomFactor := zP * sigmaPerformance
  clampQ (performanceR * stabilityFactor * (1 + randomFactor)) 0 1

/-- `Student.getPerformanceScore` (src/script.js lines 206-219):
`Math.max(0, final_ratio * maxScore)`. -/
def getPerformanceScore (sig : ℚ → ℚ) (s : Student) (difficulty maxScore kv zM zP : ℚ) : ℚ :=
  max 0 (finalRatioOf sig s difficulty kv zM zP * maxScore)

/-- The per-problem scoring step of `holdCompetitionModal`
(src/script.js lines 806-810):
`score = s.getPerformanceScore(difficulty, maxScore, avgK);`
`final = Math.floor(score); final = Math.floor(final/10)*10;`
`final = clampInt(final, 0, maxScore);`
The source instantiates the per-problem maximum at the literal `100`; it is
generalised here to the parameter `pm`. -/
def problemScorePipeline (sig : ℚ → ℚ) (s : Student) (difficulty kv zM zP : ℚ) (pm : ℕ) : ℤ :=
  let score := getPerformanceScore sig s difficulty (pm : ℚ) kv zM zP
  let f1 : ℤ := ⌊score⌋
  let f2 : ℤ := f1.fdiv 10 * 10
  clampInt (f2 : ℚ) 0 (pm : ℤ)

/-- `Student.calculateKnowledgeGain` (src/script.js lines 220-223). -/
def calculateKnowledgeGain (s : Student) (baseGain facilityBonus sickPenalty : ℚ) : ℤ :=
  ⌊baseGain * ((0.6 * (s.thinking / 100) + 0.4) * (1 - s.pressure / FATIGUE_FROM_PRESSURE))
    * facilityBonus * sickPenalty⌋

/-- `Student.addKnowledge` (src/script.js lines 232-238). -/
def addKnowledge (s : Student) (t : String) (amount : ℚ) : Student :=
  if t = "数据结构" then { s with knowledge_ds := s.knowledge_ds + amount }
  else if t = "图论" then { s with knowledge_graph := s.knowledge_graph + amount }
  else if t = "字符串" then { s with knowledge_string := s.knowledge_string + amount }
  else if t = "数学" then { s with knowledge_math := s.knowledge_math + amount }
  else if t = "DP" ∨ t = "动态规划" then { s with knowledge_dp := s.knowledge_dp + amount }
  else s

/-- `Student.getKnowledgeByType` (src/script.js lines 224-231). -/
def getKnowledgeByType (s : Student) (t : String) : ℚ :=
  if t = "数据结构" then s.knowledge_ds
  else if t = "图论" then s.knowledge_graph
  else if t = "字符串" then s.knowledge_string
  else if t = "数学" then s.knowledge_math
  else if t = "DP" ∨ t = "动态规划" then s.knowledge_dp
  else 0

/-- Sum of the five knowledge axes of a student. -/
def knowledgeSum (s : Student) : ℚ :=
  s.knowledge_ds + s.knowledge_graph + s.knowledge_string + s.knowledge_math + s.knowledge_dp

/-- The five knowledge-point names offered by `KP_OPTIONS`
(src/script.js line 666), the vocabulary from which problem tags are drawn. -/
def kpTagNames : List String := ["数据结构", "图论", "字符串", "数学", "动态规划"]

/-! ## Gain Distribution Allocator (src/unnamed/part_000, lines 15-60) -/

/-- One element of the `problems` array handed to `distributeContestGains`:
`{maxScore, actualScore, thinkingBase, codingBase}`.  A JS field that is
absent or `0` is falsy; absence is modelled as the value `0`. -/
structure GProb where
  maxScore : ℚ
  actualScore : ℚ
  thinkingBase : ℚ
  codingBase : ℚ
deriving DecidableEq

/-- The weight of one problem (src/unnamed/part_000 lines 20-25):
`scoreRatio = actualScore > 0 ? actualScore / Math.max(1, maxScore) : 0`,
`difficultyFactor = Math.max(1, thinkingBase || codingBase || 50)`,
weight = `scoreRatio * difficultyFactor`. -/
def weightOf (p : GProb) : ℚ :=
  let scoreR := if 0 < p.actualScore then p.actualScore / max 1 p.maxScore else 0
  let difficultyFactor :=
    max 1 (if p.thinkingBase ≠ 0 then p.thinkingBase
           else if p.codingBase ≠ 0 then p.codingBase else 50)
  scoreR * difficultyFactor

/-- `totalWeight` (src/unnamed/part_000 line 27). -/
def totalWeightOf (ps : List GProb) : ℚ := (ps.map weightOf).sum

/-- The floored per-problem gains of the knowledge kind before deficit
compensation (src/unnamed/part_000 lines 35-39). -/
def baseGains (cap : ℚ) (ps : List GProb) : List ℤ :=
  ps.map fun p => ⌊weightOf p / totalWeightOf ps * cap⌋

/-- `problems[i].actualScore || 0` — the actual score at index `i`, `0` out of
range. -/
def ascoreAt (ps : List GProb) (i : ℕ) : ℚ := ((ps.get? i).map GProb.actualScore).getD 0

/-- The index list `[s, s+1, …, s+m-1]` visited by the `for` loop of the source. -/
def idxFrom (s : ℕ) : ℕ → List ℕ
  | 0 => []
  | m + 1 => s :: idxFrom (s + 1) m

/-- The running-maximum loop of src/unnamed/part_000 lines 47-54:
starting from candidate `best`, scan the remaining indices and move to `i`
exactly when `f i` is strictly greater than the current best value. -/
def argmaxGo (f : ℕ → ℚ) (best : ℕ) : List ℕ → ℕ
  | [] => best
  | i :: is => argmaxGo f (if f best < f i then i else best) is

/-- `maxScoreIdx` of src/unnamed/part_000 lines 46-54: index of the first
problem attaining the maximal `actualScore`. -/
def maxScoreIdxOf (ps : List GProb) : ℕ :=
  argmaxGo (ascoreAt ps) 0 (idxFrom 1 (ps.length - 1))

/-- `distributeContestGains` for the knowledge gain type
(src/unnamed/part_000 lines 15-60): floored proportional gains, with the
rounding deficit `floor(totalGainCap) - sum` added to the gain of the problem
with the highest `actualScore` when positive. -/
def distributeGainsKnowledge (cap : ℚ) (ps : List GProb) : List ℤ :=
  if ps = [] then []
  else if totalWeightOf ps = 0 then ps.map fun _ => 0
  else
    let gains := baseGains cap ps
    let deficit := ⌊cap⌋ - gains.sum
    if 0 < deficit then
      let i := maxScoreIdxOf ps
      gains.set i (gains.getD i 0 + deficit)
    else gains

/-- `distributeContestGains` for the continuous kinds (thinking and
coding): `Math.round(rawGain * 10) / 10`, no deficit compensation
(src/unnamed/part_000 line 38). -/
def distributeGainsAbility (cap : ℚ) (ps : List GProb) : List ℚ :=
  if ps = [] then []
  else if totalWeightOf ps = 0 then ps.map fun _ => 0
  else ps.map fun p => (round (weightOf p / totalWeightOf ps * cap * 10) : ℚ) / 10

/-! ## Training (src/script.js lines 565-614) -/

/-- The topic branch of `trainStudents` for a single student
(src/script.js lines 578-600).  `kg` is the already-computed knowledge gain;
`u1`/`u2` are the values of the `uniform(...)` draws for the thinking and
coding increments (their ranges depend on the topic; the drawn value is a
parameter).  `damp` is `1 - Math.min(0.6, pressure/200)`, evaluated against
the pressure of the student before any update, as in the source. -/
def trainTopicStep (computerEff : ℚ) (topic : String) (kg : ℤ) (u1 u2 : ℚ) (s : Student) : Student :=
  let damp : ℚ := 1 - min 0.6 (s.pressure / 200)
  if topic = "数据结构" then
    { s with knowledge_ds := s.knowledge_ds + (kg : ℚ),
             thinking := s.thinking + u1 * damp, coding := s.coding + u2 * damp }
  else if topic = "图论" then
    { s with knowledge_graph := s.knowledge_graph + (kg : ℚ), thinking := s.thinking + u1 * damp }
  else if topic = "字符串" then
    { s with knowledge_string := s.knowledge_string + (kg : ℚ), coding := s.coding + u2 * damp }
  else if topic = "数学" then
    { s with knowledge_math := s.knowledge_math + (kg : ℚ), thinking := s.thinking + u1 * damp }
  else if topic = "DP" then
    { s with knowledge_dp := s.knowledge_dp + (kg : ℚ), thinking := s.thinking + u1 * damp }
  else if topic = "综合" then
    let avgGain : ℤ := max 1 ⌊(kg : ℚ) * 0.25⌋
    { s with knowledge_ds := s.knowledge_ds + (avgGain : ℚ),
             knowledge_graph := s.knowledge_graph + (avgGain : ℚ),
             knowledge_string := s.knowledge_string + (avgGain : ℚ),
             knowledge_math := s.knowledge_math + (avgGain : ℚ),
             knowledge_dp := s.knowledge_dp + (avgGain : ℚ),
             thinking := s.thinking + u1 * computerEff * damp,
             coding := s.coding + u2 * computerEff * damp }
  else s

/-- The `pressure_increase` added by `trainStudents`
(src/script.js lines 603-610): base pressure by intensity, multiplied by the
heavy/medium multipliers, the composite bonus, the weather factor, the
canteen reduction and the comfort factor, plus `10` when sick. -/
def trainPressureInc (weatherF canteenRed comfort : ℚ) (topic : String) (intensity : ℕ)
    (sick : Bool) : ℚ :=
  let bp : ℚ := if intensity = 1 then 10 else if intensity = 2 then 20 else 30
  let bp := if intensity = 3 then bp * 2.5 else if intensity = 2 then bp * 1.5 else bp
  let bp := if topic = "综合" then bp * 1.2 else bp
  let comfortFactor : ℚ := 1 + max 0 ((50 - comfort) / 100)
  bp * weatherF * canteenRed * comfortFactor + (if sick then 10 else 0)

/-- The body of the `trainStudents` loop for one active student
(src/script.js lines 571-610): set comfort, compute the knowledge gain,
apply the topic branch, clamp thinking and coding to `100`, then add the
pressure increase (which is not clamped in the source). -/
def trainStudent (weatherF canteenRed libraryEff computerEff comfort : ℚ)
    (topic : String) (intensity : ℕ) (u1 u2 : ℚ) (s : Student) : Student :=
  let s0 := { s with comfort := comfort }
  let sickPenalty : ℚ := if 0 < s0.sick_weeks then 0.7 else 1
  let baseGain : ℚ := (intensity : ℚ) * 4
  let kg : ℤ := max 0 (calculateKnowledgeGain s0 baseGain libraryEff sickPenalty)
  let s1 := trainTopicStep computerEff topic kg u1 u2 s0
  let s2 := { s1 with thinking := min 100 s1.thinking, coding := min 100 s1.coding }
  { s2 with pressure := s2.pressure +
      trainPressureInc weatherF canteenRed comfort topic intensity (0 < s2.sick_weeks) }

/-! ## Mock-contest result application (src/script.js lines 728-757) -/

/-- `pressure_gain` bucket by total score (src/script.js lines 736-740). -/
def mockPressureGain (total : ℚ) : ℚ :=
  if total < 100 then 30 else if total < 200 then 20 else if total ≤ 300 then 10 else 16

/-- `overall_score_factor` bucket by total score (src/script.js lines 736-740). -/
def mockScoreFactor (total : ℚ) : ℚ :=
  if total < 100 then 0.3 else if total < 200 then 0.7 else if total ≤ 300 then 1 else 0.6

/-- The `mock-apply` handler body for one active student
(src/script.js lines 732-756): per-question knowledge gains distributed
evenly over the tags of the question with integer floor division, then
`mental = clamp(mental + mental_change, 0, 100)` and
`pressure += pressure_gain`.  `mcDraw` is the drawn `mental_change`;
`kDraws` holds the per-question `uniform(base_min, base_max)` draws. -/
def mockApplyStudent (questionTags : List (List String)) (scores : List ℚ) (total : ℚ)
    (mcDraw : ℚ) (kDraws : List ℚ) (s : Student) : Student :=
  let osf := mockScoreFactor total
  let pg := mockPressureGain total
  let s1 := (List.range 4).foldl (fun acc i =>
    let tags := questionTags.getD i []
    let problemScore := scores.getD i 0
    let problemScoreFactor := problemScore / 100
    let growthFactor := problemScoreFactor * 0.7 + osf * 0.3
    let kg : ℤ := max 0 ⌊kDraws.getD i 0 * growthFactor⌋
    if 0 < tags.length then
      let per : ℤ := kg.fdiv (tags.length : ℤ)
      tags.foldl (fun a t => addKnowledge a t (per : ℚ)) acc
    else acc) s
  { s1 with mental := clampQ (s1.mental + mcDraw) 0 100, pressure := s1.pressure + pg }

/-! ## Knowledge gain application after a mock contest
(src/unnamed/part_000 lines 951-976) -/

/-- Application of the distributed knowledge gain of one problem to a student
(src/unnamed/part_000 lines 952-976): skip non-positive gains, split the gain
over the tags of the problem by `Math.floor(knowledgeGain / tagCount)` with
`tagCount = Math.max(1, tags.length)`, skip when the per-tag share is not
positive, otherwise add the share to every tag via `Student.addKnowledge`. -/
def applyProblemKnowledgeGain (s : Student) (tags : List String) (gain : ℤ) : Student :=
  if gain ≤ 0 then s
  else
    let tagCount : ℕ := max 1 tags.length
    let perTagGain : ℤ := gain.fdiv (tagCount : ℤ)
    if perTagGain ≤ 0 then s
    else tags.foldl (fun a t => addKnowledge a t (perTagGain : ℚ)) s

/-! ## Contest integration module (src/unnamed/part_000):
qualification chain, result handling, rewards.

`window.game` is modelled as an explicit `Game` value threaded through the
functions.  JS `Set`s (`qualification[..][..]`, `completedCompetitions`,
`fundingIssued`) become lists with membership-guarded insertion.  The
external collaborators called by the source (`CompetitionEngine`,
`ContestUI`, `triggerGameEnding`, `showModal`, `log`, `localStorage`,
talent triggers) perform no computation that the embedded core reads back;
their invocations are recorded as explicit actions (`Act`) in an event
trace so that ordering claims can be stated.  The half-season boundary
(`WEEKS_PER_HALF`, declared in models.js which is not part of src/, with
fallback `Math.floor(SEASON_WEEKS / 2)`) is the parameter `hb`.  The global
tuning knobs `PRESSURE_INCREASE_MULTIPLIER` and `PASS_LINE_MULTIPLIER`
(absent from src/, defaulting to `1.0`) are the parameters `pMult` and
`plMult`. -/

/-- A roster member as read by the contest-integration module. -/
structure SS where
  name : String
  active : Bool
  pressure : ℚ
  mental : ℚ
deriving DecidableEq

/-- A contest definition `{name, week, …}` as read by the module. -/
structure CompDef where
  name : String
  week : ℕ
deriving DecidableEq

/-- One element of the `entries` array of a career-ledger record (name, passed
flag, eligible flag); the display-only fields (rank, score, remark) are
omitted. -/
structure CareerEntryRec where
  ename : String
  passed : Bool
  eligible : Bool
deriving DecidableEq

/-- One `careerCompetitions` record (src/unnamed/part_000 lines 149-163,
211-225 and 429-444). -/
structure CareerRec where
  week : ℕ
  cname : String
  passedCount : ℕ
  totalStudents : ℕ
  entries : List CareerEntryRec
deriving DecidableEq

/-- The mutable game state read and written by the contest-integration
module.  `qual h c` is the set (duplicate-free list) of names qualified for
stage `c` in half-season `h`. -/
structure Game where
  week : ℕ
  province : String
  budget : ℤ
  qual : ℕ → String → List String
  completed : List (ℕ × String × ℕ)
  career : List CareerRec
  fundingIssued : List (ℕ × String × ℕ)
  students : List SS

/-- The ending reason written by the chain-failure paths
(src/unnamed/part_000 lines 169 and 370). -/
def chainFailReason : String := "晋级链断裂"

/-- The empty string, used as the out-of-range default of a JS array
access. -/
def emptyName : String := ""

/-- Observable actions of the contest-integration module, recorded in
source order: ledger writes, reward issuing, UI/ending signals. -/
inductive Act where
  | markCompleted (key : ℕ × String × ℕ)
  | careerWrite
  | qualWrite (half : ℕ) (comp : String)
  | pressureApply
  | rewardIssue (amount : ℤ)
  | showResults
  | signalEnding (reason : String)
  | pushEvent
  | startSimulation
deriving DecidableEq

/-- `COMPETITION_ORDER` fallback (src/unnamed/part_000 lines 82 and 519). -/
def compOrder : List String := ["CSP-S1", "CSP-S2", "NOIP", "省选", "NOI"]

/-- `compOrder.indexOf(name)`, `-1` when absent (JS semantics). -/
def currentIdxOf (n : String) : ℤ :=
  match compOrder.findIdx? (fun c => c == n) with
  | some i => (i : ℤ)
  | none => -1

/-- `compOrder[currentIdx - 1]` — the previous stage in the chain. -/
def prevCompOf (n : String) : String :=
  compOrder.getD (currentIdxOf n - 1).toNat emptyName

/-- The eligibility loop of `holdCompetitionModalNew`
(src/unnamed/part_000 lines 106-133): skip inactive students; for a stage
with `currentIdx > 0` a student is eligible iff their name is in the
qualified set of the previous stage for the current half-season; the first
stage has no prerequisite.  Returns `(eligibleStudents, ineligibleStudents)`
in roster order. -/
def splitEligible (q : ℕ → String → List String) (half : ℕ) (cname : String)
    : List SS → List SS × List SS
  | [] => ([], [])
  | s :: rest =>
    let p := splitEligible q half cname rest
    if s.active = false then p
    else if 0 < currentIdxOf cname then
      if s.name ∈ q half (prevCompOf cname) then (s :: p.1, p.2) else (p.1, s :: p.2)
    else (s :: p.1, p.2)

/-- Add a name to a set-as-list (JS `Set.add`). -/
def addName (l : List String) (n : String) : List String :=
  if n ∈ l then l else l ++ [n]

/-- Add several names to a set-as-list. -/
def addNames (l : List String) (ns : List String) : List String := ns.foldl addName l

/-- Medal grading for the terminal stage `NOI`
(src/unnamed/part_000 lines 319-331): thresholds are `passLine * 1.0`,
`passLine * 0.7` and `passLine * 0.5`, tested in that order. -/
inductive Medal where
  | gold
  | silver
  | bronze
deriving DecidableEq

/-- The medal computation of `handleCompetitionResults`
(src/unnamed/part_000 lines 324-329) as a function of the score and the pass
line it is compared against. -/
def medalFor (score pl : ℚ) : Option Medal :=
  if pl * 1 ≤ score then some Medal.gold
  else if pl * 0.7 ≤ score then some Medal.silver
  else if pl * 0.5 ≤ score then some Medal.bronze
  else none

/-- `extraPressure` (src/unnamed/part_000 lines 301-306):
`min(15, ceil(max(0, baseline - score) / max(1, totalMax/20)))` when
`totalMax > 0`, else `0`; `baseline = totalMax / 2`. -/
def extraPressureOf (totalMax score : ℚ) : ℤ :=
  if 0 < totalMax then
    min 15 ⌈(max 0 (totalMax / 2 - score)) / max 1 (totalMax / 20)⌉
  else 0

/-- The recorded `state._extraPressure` (src/unnamed/part_000 lines 307-316):
the computed extra pressure when the student failed, scored strictly below
the midpoint, or tied the session minimum — and the computed extra pressure
is positive; `0` otherwise. -/
def flaggedExtraOf (passed : Bool) (totalMax score minScore : ℚ) : ℤ :=
  let baseline : ℚ := if 0 < totalMax then totalMax / 2 else 0
  let ep := extraPressureOf totalMax score
  if ((!passed) || (decide (0 < baseline) && decide (score < baseline))
      || decide (score = minScore)) && decide (0 < ep)
  then ep else 0

/-- `getPassRateForCompetition` (src/unnamed/part_000 lines 460-478) with
the tuning constants of src/script.js lines 29-32. -/
def getPassRateFor (provinceType compName : String) : ℚ :=
  let base : ℚ :=
    if provinceType = "强省" then 0.65
    else if provinceType = "弱省" then 0.4
    else 0.5
  if compName = "省选" then base + 0.2 else base

/-- `calculatePassLine` (src/unnamed/part_000 lines 483-509).
`sortedScores` is in descending order; `plMult` is the global
`PASS_LINE_MULTIPLIER`. -/
def calculatePassLine (sortedScores : List ℚ) (passRate totalMax : ℚ) (compName : String)
    (plMult : ℚ) : ℚ :=
  if sortedScores = [] then 0
  else
    let passCount : ℤ := max 1 ⌊(sortedScores.length : ℚ) * passRate⌋
    let baseLine := sortedScores.getD (passCount - 1).toNat 0
    let baseLine :=
      if 0 < totalMax then
        if compName = "NOI" then max baseLine (totalMax * 0.8)
        else min (max baseLine (totalMax * 0.3)) (totalMax * 0.9)
      else baseLine
    baseLine * plMult

/-- Insert a score into a descending-sorted list. -/
def insertDesc (x : ℚ) : List ℚ → List ℚ
  | [] => [x]
  | y :: ys => if y < x then x :: y :: ys else y :: insertDesc x ys

/-- `scores.sort((a,b) => b - a)` — descending sort. -/
def sortDesc (l : List ℚ) : List ℚ := l.foldr insertDesc []

/-- `Math.min.apply(null, scores)` with `0` for an empty list
(src/unnamed/part_000 line 269). -/
def minScoreOf : List ℚ → ℚ
  | [] => 0
  | x :: xs => xs.foldl min x

/-- A simulator output for one participating student: the student and the
total score produced by the external contest engine. -/
structure StState where
  student : SS
  totalScore : ℚ
deriving DecidableEq

/-- One element of the `results` array built by `handleCompetitionResults`
(src/unnamed/part_000 lines 333-356).  The mutated student object itself is
shared state in JS; here the record keeps the fields the rest of the module
reads (`student.name`, `passed`, `notParticipated`) plus the displayed data. -/
structure RRes where
  sname : String
  score : Option ℚ
  passed : Bool
  medal : Option Medal
  extraP : ℤ
  notParticipated : Bool
deriving DecidableEq

/-- The per-participant result record of `handleCompetitionResults`
(src/unnamed/part_000 lines 273-342): pass test against the pass line, the
recorded extra-pressure flag, and the NOI medal. -/
def resultOfState (passLine totalMax minScore : ℚ) (isNOI : Bool) (st : StState) : RRes :=
  let score := st.totalScore
  let passed := decide (passLine ≤ score)
  let ep := flaggedExtraOf passed totalMax score minScore
  let medal := if isNOI then medalFor score passLine else none
  ⟨st.student.name, some score, passed, medal, ep, false⟩

/-- The full `results` array (participants in state order, then the
ineligible students marked `notParticipated`,
src/unnamed/part_000 lines 272-356). -/
def resultsOf (plMult : ℚ) (cfgMaxScores : List ℚ) (states : List StState)
    (comp : CompDef) (inelig : List SS) (province : String) : List RRes :=
  let scores := sortDesc (states.map StState.totalScore)
  let passRate := getPassRateFor province comp.name
  let totalMax := cfgMaxScores.sum
  let passLine := calculatePassLine scores passRate totalMax comp.name plMult
  let minScore := minScoreOf (states.map StState.totalScore)
  (states.map (resultOfState passLine totalMax minScore (comp.name = "NOI")))
    ++ inelig.map fun s => ⟨s.name, none, false, none, 0, true⟩

/-- `passedCount` (src/unnamed/part_000 line 365). -/
def passedCountOf (rs : List RRes) : ℕ :=
  (rs.filter fun r => !r.notParticipated && r.passed).length

/-- The per-result reward amount of `distributeRewards`
(src/unnamed/part_000 lines 575-588).  `draw i lo hi` stands for the value
of the `i`-th `uniformInt(lo, hi)` call. -/
def rewardAmt (draw : ℕ → ℤ → ℤ → ℤ) (compName : String) (i : ℕ) : ℤ :=
  if compName = "NOI" then draw i 30000 50000
  else if compName = "NOIP" then draw i 10000 20000
  else if compName = "CSP-S2" then draw i 4000 8000
  else if compName = "CSP-S1" then draw i 2000 5000
  else 0

/-- The reward-summing loop of `distributeRewards`
(src/unnamed/part_000 lines 572-591). -/
def rewardsTotal (draw : ℕ → ℤ → ℤ → ℤ) (compName : String) : ℕ → List RRes → ℤ
  | _, [] => 0
  | i, r :: rest =>
    (if !r.passed || r.notParticipated then 0 else rewardAmt draw compName i)
      + rewardsTotal draw compName (i + 1) rest

/-- `distributeRewards` (src/unnamed/part_000 lines 555-618).  The guard at
the top checks `fundingIssued` for the `(halfIndex, compName, week)` key.
The marking step at lines 608-614 references `halfBoundary_ui`, a `const`
that is block-scoped to the earlier `try{}` block and therefore out of scope
there; the resulting `ReferenceError` is swallowed by the surrounding
`catch(e){}`, so the source never adds the key to `fundingIssued`.  The
embedding reproduces this faithfully: `fundingIssued` is left unchanged. -/
def distributeRewards (hb : ℕ) (draw : ℕ → ℤ → ℤ → ℤ) (g : Game) (results : List RRes)
    (compName : String) : ℤ × Game :=
  let halfIndex : ℕ := if hb < g.week then 1 else 0
  let fundingKey := (halfIndex, compName, g.week)
  if fundingKey ∈ g.fundingIssued then (0, g)
  else
    let totalReward := rewardsTotal draw compName 0 results
    if 0 < totalReward then (totalReward, { g with budget := g.budget + totalReward })
    else (totalReward, g)

/-- The intended `distributeRewards`, as documented by the comments of the
source itself ("ensure funding is only issued once per competition-week" /
"mark funding as issued for this competition-week",
src/unnamed/part_000 lines 559 and 607): identical to `distributeRewards`
except that a positive issuance also records the funding key. -/
def distributeRewardsIntended (hb : ℕ) (draw : ℕ → ℤ → ℤ → ℤ) (g : Game)
    (results : List RRes) (compName : String) : ℤ × Game :=
  let halfIndex : ℕ := if hb < g.week then 1 else 0
  let fundingKey := (halfIndex, compName, g.week)
  if fundingKey ∈ g.fundingIssued then (0, g)
  else
    let totalReward := rewardsTotal draw compName 0 results
    if 0 < totalReward then
      (totalReward, { g with budget := g.budget + totalReward,
                             fundingIssued := fundingKey :: g.fundingIssued })
    else (totalReward, g)

/-- `updateQualifications` (src/unnamed/part_000 lines 515-550): when the
contest is in the chain, ensure the `(seasonIdx, compName)` entry exists and
add the name of every passing participant to it. -/
def updateQualifications (hb : ℕ) (rs : List RRes) (compName : String) (g : Game) : Game :=
  if currentIdxOf compName < 0 then g
  else
    let seasonIdx : ℕ := if hb < g.week then 1 else 0
    let newNames := (rs.filter fun r => r.passed && !r.notParticipated).map RRes.sname
    { g with qual := fun h c =>
        if h = seasonIdx ∧ c = compName then addNames (g.qual h c) newNames else g.qual h c }

/-- `handleCompetitionResults` (src/unnamed/part_000 lines 258-455),
returning the updated game state and the trace of observable actions in
source order: the qualification update, then — in the second half-season
with nobody passing — the chain-failure ending signal and an immediate
return; otherwise the deferred extra-pressure application, the reward call,
the result modal, the completed-competition mark and the career-ledger
record.  Per-student psychological mutations are deterministic state
updates with no observable action and are settled separately on the
dedicated per-student functions. -/
def handleCompetitionResults (hb : ℕ) (draw : ℕ → ℤ → ℤ → ℤ) (plMult : ℚ)
    (cfgMaxScores : List ℚ) (states : List StState) (comp : CompDef)
    (inelig : List SS) (g : Game) : Game × List Act :=
  let results := resultsOf plMult cfgMaxScores states comp inelig g.province
  let halfIndex : ℕ := if hb < g.week then 1 else 0
  let g1 := updateQualifications hb results comp.name g
  let acts1 : List Act :=
    if currentIdxOf comp.name < 0 then [] else [Act.qualWrite halfIndex comp.name]
  let passedCount := passedCountOf results
  if halfIndex = 1 ∧ passedCount = 0 then
    (g1, acts1 ++ [Act.signalEnding chainFailReason])
  else
    let (reward, g2) := distributeRewards hb draw g1 results comp.name
    let key := (halfIndex, comp.name, comp.week)
    let g3 := { g2 with completed := key :: g2.completed }
    let participantCount := (results.filter fun r => !r.notParticipated).length
    let entries := (results.filter fun r => !r.notParticipated).map
      fun r => CareerEntryRec.mk r.sname r.passed true
    let g4 := { g3 with career :=
      g3.career ++ [CareerRec.mk g.week comp.name passedCount participantCount entries] }
    (g4, acts1 ++ [Act.pressureApply, Act.rewardIssue reward, Act.showResults,
                   Act.markCompleted key, Act.careerWrite])

/-- The eligible list computed by `holdCompetitionModalNew` for the current
half-season. -/
def eligibleFor (hb : ℕ) (comp : CompDef) (g : Game) : List SS :=
  (splitEligible g.qual (if hb < g.week then 1 else 0) comp.name g.students).1

/-- `holdCompetitionModalNew` up to the hand-off to the external simulator
(src/unnamed/part_000 lines 66-252).  When no student is eligible: in the
second half-season the contest is marked completed, a career record listing
every active student as a non-participant is appended, and only then is the
chain-failure ending signalled; in the first half-season an event is pushed
and the same two ledger writes happen without an ending.  Otherwise the
external simulator is started. -/
def holdCompetitionModalNew (hb : ℕ) (comp : CompDef) (g : Game) : Game × List Act :=
  let halfIndex : ℕ := if hb < g.week then 1 else 0
  let elig := eligibleFor hb comp g
  if elig = [] then
    let key := (halfIndex, comp.name, comp.week)
    let entries := (g.students.filter fun s => s.active).map
      fun s => CareerEntryRec.mk s.name false false
    let g1 := { g with completed := key :: g.completed }
    let g2 := { g1 with career := g1.career ++ [CareerRec.mk g.week comp.name 0 0 entries] }
    if halfIndex = 1 then
      (g2, [Act.markCompleted key, Act.careerWrite, Act.signalEnding chainFailReason])
    else
      (g2, [Act.pushEvent, Act.markCompleted key, Act.careerWrite])
  else
    (g, [Act.startSimulation])

/-- Actions that issue funding. -/
def isRewardAct : Act → Bool
  | Act.rewardIssue _ => true
  | _ => false

/-- Actions that write the qualification ledger. -/
def isQualWriteAct : Act → Bool
  | Act.qualWrite _ _ => true
  | _ => false

/-- Actions that write the career ledger. -/
def isCareerWriteAct : Act → Bool
  | Act.careerWrite => true
  | _ => false

/-- Actions that the claim "signaled immediately — before any reward issuing
or any write to the qualification/career ledgers" forbids before the ending
signal: reward issuing and qualification/career ledger writes. -/
def isLedgerOrRewardAct (a : Act) : Bool :=
  isRewardAct a || isQualWriteAct a || isCareerWriteAct a

/-- The ordering property asserted by the chain-failure claim for a trace:
every reward issue or ledger write is preceded by an ending signal. -/
def endingSignaledFirst (t : List Act) : Prop :=
  ∀ j a, t.get? j = some a → isLedgerOrRewardAct a = true →
    ∃ i, i < j ∧ ∃ r, t.get? i = some (Act.signalEnding r)

/-! ## Concrete fixtures used by counterexamples and witnesses -/

/-- A student with maximal skill axes and zero knowledge axes. -/
def sAb : Student :=
  ⟨"甲", 100, 100, 100, 0, 0, 0, 0, 0, 20, 50, 0, true⟩

/-- A student with zero skill axes and all knowledge axes at 100. -/
def sKn : Student :=
  ⟨"乙", 0, 0, 0, 100, 100, 100, 100, 100, 20, 50, 0, true⟩

/-- A healthy student carrying pressure 95. -/
def s95 : Student :=
  ⟨"丙", 50, 50, 50, 0, 0, 0, 0, 0, 95, 50, 0, true⟩

/-- A student for the knowledge-split witness. -/
def sTag : Student :=
  ⟨"丁", 40, 40, 40, 1, 2, 3, 4, 5, 10, 50, 0, true⟩

/-- An active roster member with no qualification history. -/
def ssA : SS := ⟨"小明", true, 20, 50⟩

/-- A second active roster member. -/
def ssB : SS := ⟨"小红", true, 20, 50⟩

/-- A second-half-season game state whose roster has a single active student
and an empty qualification ledger (so every stage past the first has zero
eligible students). -/
def g0 : Game :=
  { week := 37, province := "普通省", budget := 0,
    qual := fun _ _ => [], completed := [], career := [],
    fundingIssued := [], students := [ssA] }

/-- The terminal-stage contest of the schedule (week 50 in
src/script.js line 26; the fixture uses its name with a second-half week). -/
def compNOI : CompDef := ⟨"NOI", 50⟩

/-- A mid-chain contest definition. -/
def compNOIP : CompDef := ⟨"NOIP", 20⟩

/-- A simulator output in which the single participant scores zero. -/
def statesZero : List StState := [⟨ssA, 0⟩]

/-- A result list with exactly one passing participant. -/
def resultsOnePass : List RRes := [⟨"小明", some 350, true, none, 0, false⟩]

/-- A reward draw that always returns the lower bound of the range. -/
def drawLo : ℕ → ℤ → ℤ → ℤ := fun _ lo _ => lo

/-- A qualification ledger in which only 小明 passed CSP-S2 in the second
half-season. -/
def qualOne : ℕ → String → List String :=
  fun h c => if h = 1 ∧ c = "CSP-S2" then ["小明"] else []

/-- Two problems for the gain-distribution witness: scores 80 and 100 out of
100, equal difficulty baseline 50. -/
def psW : List GProb := [⟨100, 80, 50, 0⟩, ⟨100, 100, 50, 0⟩]

/-! ## Helper lemmas -/

/-- The lower clamp bound holds. -/
theorem le_clampQ (v lo hi : ℚ) : lo ≤ clampQ v lo hi := le_max_left _ _

/-- The upper clamp bound holds when the interval is non-degenerate. -/
theorem clampQ_le (v lo hi : ℚ) (h : lo ≤ hi) : clampQ v lo hi ≤ hi :=
  max_le h (min_le_left _ _)

/-- A sum of floors is at most the floor of the sum. -/
theorem sum_map_floor_le_floor_sum (l : List ℚ) :
    (l.map fun x => ⌊x⌋).sum ≤ ⌊l.sum⌋ := by
  induction l with
  | nil => simp
  | cons a t ih =>
    simp only [List.map_cons, List.sum_cons]
    refine Int.le_floor.mpr ?_
    push_cast
    have h1 : (⌊a⌋ : ℚ) ≤ a := Int.floor_le a
    have h2 : (((t.map fun x => ⌊x⌋).sum : ℤ) : ℚ) ≤ ((⌊t.sum⌋ : ℤ) : ℚ) := by
      exact_mod_cast ih
    have h3 : ((⌊t.sum⌋ : ℤ) : ℚ) ≤ t.sum := Int.floor_le _
    push_cast at h2
    linarith

/-- Summing `x * r` over a list multiplies the sum by `r`. -/
theorem sum_map_mul_const (l : List ℚ) (r : ℚ) :
    (l.map fun x => x * r).sum = l.sum * r := by
  induction l with
  | nil => simp
  | cons a t ih =>
    simp only [List.map_cons, List.sum_cons, ih]
    ring

/-- The raw (un-floored) proportional gains sum to the cap whenever the
total weight is nonzero. -/
theorem sum_map_rawGain (ps : List GProb) (cap : ℚ) (hW : totalWeightOf ps ≠ 0) :
    (ps.map fun p => weightOf p / totalWeightOf ps * cap).sum = cap := by
  have h1 : (ps.map fun p => weightOf p / totalWeightOf ps * cap)
      = (ps.map weightOf).map fun w => w * (cap / totalWeightOf ps) := by
    rw [List.map_map]
    apply List.map_congr_left
    intro p _
    simp only [Function.comp_apply]
    ring
  rw [h1, sum_map_mul_const]
  show totalWeightOf ps * (cap / totalWeightOf ps) = cap
  field_simp

/-- The floored proportional gains sum to at most `⌊cap⌋`. -/
theorem baseGains_sum_le (ps : List GProb) (cap : ℚ) (hW : totalWeightOf ps ≠ 0) :
    (baseGains cap ps).sum ≤ ⌊cap⌋ := by
  have h := sum_map_floor_le_floor_sum (ps.map fun p => weightOf p / totalWeightOf ps * cap)
  rw [List.map_map, sum_map_rawGain ps cap hW] at h
  exact h

/-- Updating index `i` to its old value plus `d` adds `d` to the sum. -/
theorem sum_set_getD_add (l : List ℤ) (i : ℕ) (d : ℤ) (h : i < l.length) :
    (l.set i (l.getD i 0 + d)).sum = l.sum + d := by
  induction l generalizing i with
  | nil => simp at h
  | cons a t ih =>
    cases i with
    | zero => simp [List.getD]; ring
    | succ n =>
      have hn : n < t.length := by simpa using h
      simp only [List.set, List.getD_cons_succ, List.sum_cons]
      rw [ih n hn]
      ring

/-- `get?` at the updated index. -/
theorem get?_set_self (l : List ℤ) (i : ℕ) (v : ℤ) (h : i < l.length) :
    (l.set i v).get? i = some v := by
  induction l generalizing i with
  | nil => simp at h
  | cons a t ih =>
    cases i with
    | zero => rfl
    | succ n => exact ih n (by simpa using h)

/-- `get?` away from the updated index. -/
theorem get?_set_other (l : List ℤ) (i j : ℕ) (v : ℤ) (h : j ≠ i) :
    (l.set i v).get? j = l.get? j := by
  induction l generalizing i j with
  | nil => simp
  | cons a t ih =>
    cases i with
    | zero =>
      cases j with
      | zero => exact absurd rfl h
      | succ m => rfl
    | succ n =>
      cases j with
      | zero => rfl
      | succ m => exact ih n m (fun hc => h (by omega))

/-- In range, `get?` returns the default-valued access. -/
theorem get?_eq_some_getD (l : List ℤ) (i : ℕ) (h : i < l.length) :
    l.get? i = some (l.getD i 0) := by
  induction l generalizing i with
  | nil => simp at h
  | cons a t ih =>
    cases i with
    | zero => rfl
    | succ n => exact ih n (by simpa using h)

/-- Specification of the running-maximum loop over the index list
`[s, …, s+m-1]`: starting from a candidate `best` below `s` that dominates
all indices below `s` and strictly dominates all indices below itself, the
result is below `s+m`, dominates all indices below `s+m`, and strictly
dominates all indices below itself. -/
theorem argmaxGo_idxFrom (f : ℕ → ℚ) :
    ∀ (m s best : ℕ), best < s → (∀ j, j < s → f j ≤ f best) →
    (∀ j, j < best → f j < f best) →
    argmaxGo f best (idxFrom s m) < s + m
      ∧ (∀ j, j < s + m → f j ≤ f (argmaxGo f best (idxFrom s m)))
      ∧ (∀ j, j < argmaxGo f best (idxFrom s m) → f j < f (argmaxGo f best (idxFrom s m))) := by
  intro m
  induction m with
  | zero =>
    intro s best h1 h2 h3
    simp only [idxFrom, argmaxGo]
    exact ⟨by omega, fun j hj => h2 j (by omega), h3⟩
  | succ m ih =>
    intro s best h1 h2 h3
    simp only [idxFrom, argmaxGo]
    by_cases hc : f best < f s
    · rw [if_pos hc]
      have H := ih (s + 1) s (by omega)
        (fun j hj => by
          rcases Nat.lt_succ_iff_lt_or_eq.mp hj with h | h
          · exact le_of_lt (lt_of_le_of_lt (h2 j h) hc)
          · exact h ▸ le_refl _)
        (fun j hj => lt_of_le_of_lt (h2 j hj) hc)
      refine ⟨by omega, fun j hj => H.2.1 j (by omega), H.2.2⟩
    · rw [if_neg hc]
      have H := ih (s + 1) best (by omega)
        (fun j hj => by
          rcases Nat.lt_succ_iff_lt_or_eq.mp hj with h | h
          · exact h2 j h
          · exact h ▸ not_lt.mp hc)
        h3
      refine ⟨by omega, fun j hj => H.2.1 j (by omega), H.2.2⟩

/-- The `maxScoreIdx` loop finds the first index of maximal `actualScore`. -/
theorem maxScoreIdx_spec (ps : List GProb) (h : ps ≠ []) :
    maxScoreIdxOf ps < ps.length
      ∧ (∀ j, j < ps.length → ascoreAt ps j ≤ ascoreAt ps (maxScoreIdxOf ps))
      ∧ (∀ j, j < maxScoreIdxOf ps →
          ascoreAt ps j < ascoreAt ps (maxScoreIdxOf ps)) := by
  have hl : 0 < ps.length := List.length_pos.mpr h
  have H := argmaxGo_idxFrom (ascoreAt ps) (ps.length - 1) 1 0 (by omega)
    (fun j hj => by
      have : j = 0 := by omega
      exact this ▸ le_refl _)
    (fun j hj => absurd hj (Nat.not_lt_zero j))
  have he : 1 + (ps.length - 1) = ps.length := by omega
  rw [he] at H
  exact H

/-- Adding knowledge on a recognised tag raises the knowledge sum by the
added amount. -/
theorem knowledgeSum_addKnowledge (s : Student) (t : String) (a : ℚ)
    (ht : t ∈ kpTagNames) :
    knowledgeSum (addKnowledge s t a) = knowledgeSum s + a := by
  simp only [kpTagNames, List.mem_cons, List.not_mem_nil, or_false] at ht
  rcases ht with rfl | rfl | rfl | rfl | rfl <;>
    simp [addKnowledge, knowledgeSum] <;> ring

/-- Adding knowledge on a recognised tag raises the axis of that tag by the
added amount. -/
theorem getKB_addKnowledge_same (s : Student) (t : String) (a : ℚ)
    (ht : t ∈ kpTagNames) :
    getKnowledgeByType (addKnowledge s t a) t = getKnowledgeByType s t + a := by
  simp only [kpTagNames, List.mem_cons, List.not_mem_nil, or_false] at ht
  rcases ht with rfl | rfl | rfl | rfl | rfl <;>
    simp [addKnowledge, getKnowledgeByType]

/-- Adding knowledge on one recognised tag leaves a different recognised
tag axis unchanged. -/
theorem getKB_addKnowledge_other (s : Student) (t u : String) (a : ℚ)
    (ht : t ∈ kpTagNames) (hu : u ∈ kpTagNames) (hne : t ≠ u) :
    getKnowledgeByType (addKnowledge s u a) t = getKnowledgeByType s t := by
  simp only [kpTagNames, List.mem_cons, List.not_mem_nil, or_false] at ht hu
  rcases ht with rfl | rfl | rfl | rfl | rfl <;>
    rcases hu with rfl | rfl | rfl | rfl | rfl <;>
      first
        | exact absurd rfl hne
        | simp [addKnowledge, getKnowledgeByType]

/-- Folding `addKnowledge` with a common amount over recognised tags raises
the knowledge sum by `length * amount`. -/
theorem foldl_addKnowledge_sum (a : ℚ) :
    ∀ (tags : List String) (s : Student), (∀ t ∈ tags, t ∈ kpTagNames) →
    knowledgeSum (tags.foldl (fun acc t => addKnowledge acc t a) s)
      = knowledgeSum s + (tags.length : ℚ) * a := by
  intro tags
  induction tags with
  | nil => intro s _; simp
  | cons t ts ih =>
    intro s htags
    simp only [List.foldl_cons]
    rw [ih _ (fun u hu => htags u (List.mem_cons_of_mem _ hu)),
        knowledgeSum_addKnowledge s t a (htags t (List.mem_cons_self _ _))]
    simp only [List.length_cons]
    push_cast
    ring

/-- Folding `addKnowledge` over recognised tags that avoid `t` leaves the
axis of `t` unchanged. -/
theorem foldl_addKnowledge_other (a : ℚ) (t : String) (htkp : t ∈ kpTagNames) :
    ∀ (ts : List String) (s : Student), (∀ u ∈ ts, u ∈ kpTagNames) → t ∉ ts →
    getKnowledgeByType (ts.foldl (fun acc u => addKnowledge acc u a) s) t
      = getKnowledgeByType s t := by
  intro ts
  induction ts with
  | nil => intro s _ _; rfl
  | cons u us ih =>
    intro s hkp hnot
    have hsplit : t ≠ u ∧ t ∉ us := by
      constructor
      · intro he; exact hnot (he ▸ List.mem_cons_self _ _)
      · intro hm; exact hnot (List.mem_cons_of_mem _ hm)
    simp only [List.foldl_cons]
    rw [ih _ (fun v hv => hkp v (List.mem_cons_of_mem _ hv)) hsplit.2]
    exact getKB_addKnowledge_other s t u a htkp (hkp u (List.mem_cons_self _ _)) hsplit.1

/-- Folding `addKnowledge` with a common amount over distinct recognised tags
raises the axis of each tag by exactly the amount. -/
theorem foldl_addKnowledge_tag (a : ℚ) :
    ∀ (tags : List String) (s : Student), (∀ t ∈ tags, t ∈ kpTagNames) →
    tags.Nodup → ∀ t ∈ tags,
    getKnowledgeByType (tags.foldl (fun acc u => addKnowledge acc u a) s) t
      = getKnowledgeByType s t + a := by
  intro tags
  induction tags with
  | nil => intro s _ _ t ht; simp at ht
  | cons u us ih =>
    intro s htags hnd t htmem
    simp only [List.foldl_cons]
    rcases List.mem_cons.mp htmem with rfl | hmem
    · rw [foldl_addKnowledge_other a t (htags t (List.mem_cons_self _ _)) us _
          (fun v hv => htags v (List.mem_cons_of_mem _ hv)) (List.nodup_cons.mp hnd).1]
      exact getKB_addKnowledge_same s t a (htags t (List.mem_cons_self _ _))
    · have hne : t ≠ u := fun he => (List.nodup_cons.mp hnd).1 (he ▸ hmem)
      rw [ih (addKnowledge s u a) (fun v hv => htags v (List.mem_cons_of_mem _ hv))
          (List.nodup_cons.mp hnd).2 t hmem,
        getKB_addKnowledge_other s t u a (htags t htmem)
          (htags u (List.mem_cons_self _ _)) hne]

/-- Every member of the eligible list is active, and past the first stage its
name is in the qualified set of the previous stage. -/
theorem splitEligible_mem (q : ℕ → String → List String) (half : ℕ) (cname : String) :
    ∀ (students : List SS) (t : SS), t ∈ (splitEligible q half cname students).1 →
      t.active = true ∧ (0 < currentIdxOf cname → t.name ∈ q half (prevCompOf cname)) := by
  intro students
  induction students with
  | nil => intro t ht; simp [splitEligible] at ht
  | cons s rest ih =>
    intro t ht
    simp only [splitEligible] at ht
    by_cases ha : s.active = false
    · rw [if_pos ha] at ht; exact ih t ht
    · rw [if_neg ha] at ht
      have hact : s.active = true := by revert ha; cases s.active <;> simp
      by_cases hidx : 0 < currentIdxOf cname
      · rw [if_pos hidx] at ht
        by_cases hm : s.name ∈ q half (prevCompOf cname)
        · rw [if_pos hm] at ht
          rcases List.mem_cons.mp ht with rfl | h
          · exact ⟨hact, fun _ => hm⟩
          · exact ih t h
        · rw [if_neg hm] at ht; exact ih t ht
      · rw [if_neg hidx] at ht
        rcases List.mem_cons.mp ht with rfl | h
        · exact ⟨hact, fun hc => absurd hc hidx⟩
        · exact ih t h

/-- For the first stage of the chain, every active roster member is in the
eligible list. -/
theorem splitEligible_active_mem (q : ℕ → String → List String) (half : ℕ)
    (cname : String) (hidx : ¬ 0 < currentIdxOf cname) :
    ∀ (students : List SS) (t : SS), t ∈ students → t.active = true →
      t ∈ (splitEligible q half cname students).1 := by
  intro students
  induction students with
  | nil => intro t ht _; simp at ht
  | cons s rest ih =>
    intro t ht hact
    simp only [splitEligible]
    rcases List.mem_cons.mp ht with rfl | h
    · rw [if_neg (by simp [hact]), if_neg hidx]
      exact List.mem_cons_self _ _
    · by_cases ha : s.active = false
      · rw [if_pos ha]; exact ih t h hact
      · rw [if_neg ha, if_neg hidx]
        exact List.mem_cons_of_mem _ (ih t h hact)

/-! ## Claims -/

/-- C5 (counterexample): the composite ability is NOT a weighted combination
in which the ability weight exceeds the knowledge weight: no pair of weights
with `wK < wA` reproduces `getComprehensiveAbility`, because the all-ability
student `sAb` forces `wA = 2/5` and the all-knowledge student `sKn` forces
`wK = 3/5`. -/
theorem claim_C5_counterexample :
    ¬ ∃ wA wK : ℚ, wK < wA ∧
      ∀ s : Student,
        getComprehensiveAbility s = wA * getAbilityAvg s + wK * getKnowledgeTotal s := by
  rintro ⟨wA, wK, hlt, h⟩
  have h1 := h sAb
  have h2 := h sKn
  norm_num [sAb, sKn, getComprehensiveAbility, getAbilityAvg, getKnowledgeTotal,
    ABILITY_WEIGHT, KNOWLEDGE_WEIGHT] at h1 h2
  linarith

/-- C5 (amended): the composite ability is the weighted average of the mean
of thinking/coding/mental and the mean of the five knowledge axes with the
fixed weights `ABILITY_WEIGHT = 0.4` and `KNOWLEDGE_WEIGHT = 0.6`, which sum
to one — but the knowledge weight is strictly greater than the ability
weight, not the other way round. -/
theorem claim_C5 :
    (∀ s : Student, getComprehensiveAbility s
        = ABILITY_WEIGHT * getAbilityAvg s + KNOWLEDGE_WEIGHT * getKnowledgeTotal s)
    ∧ ABILITY_WEIGHT < KNOWLEDGE_WEIGHT
    ∧ ABILITY_WEIGHT + KNOWLEDGE_WEIGHT = 1 := by
  refine ⟨fun s => rfl, ?_, ?_⟩ <;> norm_num [ABILITY_WEIGHT, KNOWLEDGE_WEIGHT]

/-- C6: for every competitor, difficulty, draws and per-problem maximum
`pm ≥ 0`, the formal-contest per-problem score lies in `[0, pm]` and equals
`floor(final_ratio * pm)` rounded down to the nearest multiple of 10 and
then clamped to `[0, pm]`.  (The source instantiates `pm` at 100.) -/
theorem claim_C6 (sig : ℚ → ℚ) (s : Student) (difficulty kv zM zP : ℚ) (pm : ℕ) :
    0 ≤ problemScorePipeline sig s difficulty kv zM zP pm
    ∧ problemScorePipeline sig s difficulty kv zM zP pm ≤ (pm : ℤ)
    ∧ problemScorePipeline sig s difficulty kv zM zP pm
        = max 0 (min (pm : ℤ)
            (10 * ((⌊finalRatioOf sig s difficulty kv zM zP * (pm : ℚ)⌋).fdiv 10)))
    ∧ 0 ≤ getPerformanceScore sig s difficulty (pm : ℚ) kv zM zP
    ∧ getPerformanceScore sig s difficulty (pm : ℚ) kv zM zP ≤ (pm : ℚ) := by
  have hr0 : 0 ≤ finalRatioOf sig s difficulty kv zM zP := by
    simp only [finalRatioOf]; exact le_clampQ _ _ _
  have hr1 : finalRatioOf sig s difficulty kv zM zP ≤ 1 := by
    simp only [finalRatioOf]; exact clampQ_le _ _ _ (by norm_num)
  have hpm : (0 : ℚ) ≤ (pm : ℚ) := by positivity
  have hscore : getPerformanceScore sig s difficulty (pm : ℚ) kv zM zP
      = finalRatioOf sig s difficulty kv zM zP * (pm : ℚ) := by
    simp only [getPerformanceScore]
    exact max_eq_right (mul_nonneg hr0 hpm)
  have hpipe : problemScorePipeline sig s difficulty kv zM zP pm
      = max 0 (min (pm : ℤ)
          ((⌊finalRatioOf sig s difficulty kv zM zP * (pm : ℚ)⌋).fdiv 10 * 10)) := by
    simp only [problemScorePipeline, hscore, clampInt]
    rw [round_intCast]
  refine ⟨?_, ?_, ?_, ?_, ?_⟩
  · rw [hpipe]; exact le_max_left _ _
  · rw [hpipe]; exact max_le (Int.natCast_nonneg pm) (min_le_left _ _)
  · rw [hpipe]; rw [mul_comm]
  · rw [hscore]; exact mul_nonneg hr0 hpm
  · rw [hscore]
    calc finalRatioOf sig s difficulty kv zM zP * (pm : ℚ)
        ≤ 1 * (pm : ℚ) := mul_le_mul_of_nonneg_right hr1 hpm
      _ = (pm : ℚ) := one_mul _

/-- C7 (counterexample): training does not clamp pressure.  A healthy
student at pressure 95 doing a light data-structures session under neutral
conditions (weather factor 1, canteen reduction 1, comfort 50) ends with
pressure 105 > 100. -/
theorem claim_C7_counterexample :
    100 < (trainStudent 1 1 1 1 50 ("数据结构") 1 0.6 0.6 s95).pressure := by
  have h : (trainStudent 1 1 1 1 50 ("数据结构") 1 0.6 0.6 s95).pressure
      = s95.pressure + trainPressureInc 1 1 50 ("数据结构") 1 (0 < s95.sick_weeks) := by
    simp only [trainStudent, trainTopicStep]
    split_ifs <;> rfl
  rw [h]
  have hs : ("数据结构" : String) ≠ "综合" := by decide
  norm_num [s95, trainPressureInc, hs]

/-- C7 (amended): training clamps thinking and coding to at most 100 and the
mock-contest application clamps mental to `[0,100]`, but the pressure
increase added by training is applied without any clamp — the resulting
pressure is exactly the old pressure plus the computed increase, so it can
exceed 100. -/
theorem claim_C7 (weatherF canteenRed libraryEff computerEff comfort : ℚ)
    (topic : String) (intensity : ℕ) (u1 u2 : ℚ) (s : Student)
    (questionTags : List (List String)) (scores : List ℚ) (total mcDraw : ℚ)
    (kDraws : List ℚ) (s2 : Student) :
    (trainStudent weatherF canteenRed libraryEff computerEff comfort
        topic intensity u1 u2 s).thinking ≤ 100
    ∧ (trainStudent weatherF canteenRed libraryEff computerEff comfort
        topic intensity u1 u2 s).coding ≤ 100
    ∧ 0 ≤ (mockApplyStudent questionTags scores total mcDraw kDraws s2).mental
    ∧ (mockApplyStudent questionTags scores total mcDraw kDraws s2).mental ≤ 100
    ∧ (trainStudent weatherF canteenRed libraryEff computerEff comfort
        topic intensity u1 u2 s).pressure
        = s.pressure + trainPressureInc weatherF canteenRed comfort topic intensity
            (0 < s.sick_weeks) := by
  refine ⟨min_le_left _ _, min_le_left _ _, le_clampQ _ _ _,
    clampQ_le _ _ _ (by norm_num), ?_⟩
  show (trainTopicStep computerEff topic _ u1 u2 { s with comfort := comfort }).pressure
      + _ = _
  simp only [trainTopicStep]
  split_ifs <;> rfl

/-- C8: terminal-stage medals key off the pass line: gold iff
`score ≥ passLine`, silver iff `passLine*0.7 ≤ score < passLine`, bronze iff
`passLine*0.5 ≤ score < passLine*0.7`, none iff `score < passLine*0.5`; and
a score of exactly `passLine*0.7` earns silver. -/
theorem claim_C8 (score pl : ℚ) (h : 0 ≤ pl) :
    (medalFor score pl = some Medal.gold ↔ pl * 1 ≤ score)
    ∧ (medalFor score pl = some Medal.silver ↔ pl * 0.7 ≤ score ∧ score < pl * 1)
    ∧ (medalFor score pl = some Medal.bronze ↔ pl * 0.5 ≤ score ∧ score < pl * 0.7)
    ∧ (medalFor score pl = none ↔ score < pl * 0.5)
    ∧ (0 < pl → medalFor (pl * 0.7) pl = some Medal.silver) := by
  have h57 : pl * 0.5 ≤ pl * 0.7 := by nlinarith
  have h71 : pl * 0.7 ≤ pl * 1 := by nlinarith
  refine ⟨?_, ?_, ?_, ?_, ?_⟩
  · unfold medalFor
    split_ifs with h1 h2 h3 <;> simp_all <;> linarith
  · unfold medalFor
    split_ifs with h1 h2 h3 <;> simp_all <;> intro <;> linarith
  · unfold medalFor
    split_ifs with h1 h2 h3 <;> simp_all <;> intro <;> linarith
  · unfold medalFor
    split_ifs with h1 h2 h3 <;> simp_all <;> linarith
  · intro hpl
    unfold medalFor
    rw [if_neg (by nlinarith), if_pos (le_refl _)]

/-- C8 (witness): with pass line 100, a score of exactly 70 earns silver and
the tier characterisations hold at scores 100, 70, 50 and 49. -/
theorem claim_C8_witness :
    (0 : ℚ) ≤ 100
    ∧ medalFor 70 100 = some Medal.silver
    ∧ medalFor 100 100 = some Medal.gold
    ∧ medalFor 49 100 = none := by
  refine ⟨by norm_num, ?_, ?_, ?_⟩
  · have := (claim_C8 70 100 (by norm_num)).2.2.2.2 (by norm_num)
    norm_num at this
    exact this
  · exact (claim_C8 100 100 (by norm_num)).1.mpr (by norm_num)
  · exact (claim_C8 49 100 (by norm_num)).2.2.2.1.mpr (by norm_num)

/-- C9: a participant whose score equals the contest midpoint `totalMax/2`
computes zero extra pressure and is not flagged by the poor-showing rule,
for every pass flag and session minimum. -/
theorem claim_C9 (passed : Bool) (totalMax score minScore : ℚ)
    (h1 : 0 < totalMax) (h2 : score = totalMax / 2) :
    extraPressureOf totalMax score = 0
    ∧ flaggedExtraOf passed totalMax score minScore = 0 := by
  have hep : extraPressureOf totalMax score = 0 := by
    unfold extraPressureOf
    rw [if_pos h1, h2]
    norm_num
  refine ⟨hep, ?_⟩
  simp [flaggedExtraOf, hep]

/-- C9 (witness): in a 100-point contest, a failing last-place competitor
scoring exactly 50 gets no extra-pressure flag and no delta. -/
theorem claim_C9_witness :
    (0 : ℚ) < 100 ∧ (50 : ℚ) = 100 / 2
    ∧ extraPressureOf 100 50 = 0 ∧ flaggedExtraOf false 100 50 50 = 0 :=
  ⟨by norm_num, by norm_num,
   (claim_C9 false 100 50 50 (by norm_num) (by norm_num)).1,
   (claim_C9 false 100 50 50 (by norm_num) (by norm_num)).2⟩

/-- C10: applying the distributed knowledge gain of a problem splits it over
the tags of the problem by integer floor division: the axis of each
(distinct) tag rises
by exactly `⌊gain / tagCount⌋`, the knowledge sum rises by
`tagCount * ⌊gain / tagCount⌋ ≤ gain`, and a positive gain strictly smaller
than the number of tags leaves the student unchanged.  (Per the data model,
every problem carries at least one tag, drawn from the five-tag
vocabulary.) -/
theorem claim_C10 (s : Student) (tags : List String) (gain : ℤ)
    (htags : ∀ t ∈ tags, t ∈ kpTagNames) (hlen : 1 ≤ tags.length) (hpos : 0 < gain) :
    (tags.Nodup → ∀ t ∈ tags,
        getKnowledgeByType (applyProblemKnowledgeGain s tags gain) t
          = getKnowledgeByType s t + ((gain.fdiv (tags.length : ℤ) : ℤ) : ℚ))
    ∧ knowledgeSum (applyProblemKnowledgeGain s tags gain)
        = knowledgeSum s + (tags.length : ℚ) * ((gain.fdiv (tags.length : ℤ) : ℤ) : ℚ)
    ∧ (tags.length : ℤ) * gain.fdiv (tags.length : ℤ) ≤ gain
    ∧ (gain < (tags.length : ℤ) → applyProblemKnowledgeGain s tags gain = s) := by
  have h0 : ¬ gain ≤ 0 := not_le.mpr hpos
  have htc : max 1 tags.length = tags.length := by omega
  have hlenz : (0 : ℤ) < (tags.length : ℤ) := by exact_mod_cast hlen
  have happ : applyProblemKnowledgeGain s tags gain
      = if gain.fdiv (tags.length : ℤ) ≤ 0 then s
        else tags.foldl (fun a t => addKnowledge a t ((gain.fdiv (tags.length : ℤ) : ℤ) : ℚ)) s := by
    simp only [applyProblemKnowledgeGain, if_neg h0, htc]
  have hpernn : 0 ≤ gain.fdiv (tags.length : ℤ) :=
    Int.fdiv_nonneg (le_of_lt hpos) (le_of_lt hlenz)
  have hfe : gain.fdiv (tags.length : ℤ) = gain / (tags.length : ℤ) :=
    Int.fdiv_eq_ediv gain (le_of_lt hlenz)
  have hmle : (tags.length : ℤ) * gain.fdiv (tags.length : ℤ) ≤ gain := by
    have hem := Int.ediv_add_emod gain (tags.length : ℤ)
    have hnn := Int.emod_nonneg gain (ne_of_gt hlenz)
    rw [hfe]
    omega
  by_cases hple : gain.fdiv (tags.length : ℤ) ≤ 0
  · have hper0 : gain.fdiv (tags.length : ℤ) = 0 := le_antisymm hple hpernn
    rw [happ, if_pos hple]
    refine ⟨?_, ?_, hmle, ?_⟩
    · intro _ t _; rw [hper0]; push_cast; ring
    · rw [hper0]; push_cast; ring
    · intro _; rfl
  · rw [happ, if_neg hple]
    refine ⟨?_, ?_, hmle, ?_⟩
    · intro hnd t ht
      exact foldl_addKnowledge_tag _ tags s htags hnd t ht
    · exact foldl_addKnowledge_sum _ tags s htags
    · intro hlt
      exfalso
      have hz : gain / (tags.length : ℤ) = 0 :=
        Int.ediv_eq_zero_of_lt (le_of_lt hpos) hlt
      rw [hfe, hz] at hple
      exact hple (le_refl 0)

/-- C10 (witness): a gain of 5 over the two tags 数学 and 图论 adds 2 to each
of the two axes (4 in total, at most the distributed 5). -/
theorem claim_C10_witness :
    (∀ t ∈ (["数学", "图论"] : List String), t ∈ kpTagNames)
    ∧ 1 ≤ (["数学", "图论"] : List String).length
    ∧ (0 : ℤ) < 5
    ∧ ((["数学", "图论"] : List String).Nodup → ∀ t ∈ (["数学", "图论"] : List String),
        getKnowledgeByType (applyProblemKnowledgeGain sTag ["数学", "图论"] 5) t
          = getKnowledgeByType sTag t + (((5 : ℤ).fdiv 2 : ℤ) : ℚ))
    ∧ knowledgeSum (applyProblemKnowledgeGain sTag ["数学", "图论"] 5)
        = knowledgeSum sTag + 2 * (((5 : ℤ).fdiv 2 : ℤ) : ℚ) := by
  have H := claim_C10 sTag ["数学", "图论"] 5 (by decide) (by decide) (by decide)
  refine ⟨by decide, by decide, by decide, ?_, ?_⟩
  · simpa using H.1
  · simpa using H.2.1

/-- C3: past the first stage, a competitor whose name is absent from the
qualified set of the previous stage for the half-season is never in the eligible
list; for the first stage every active roster member is eligible. -/
theorem claim_C3 (q : ℕ → String → List String) (half : ℕ) (cname : String)
    (students : List SS) (s : SS) :
    (0 < currentIdxOf cname → s.name ∉ q half (prevCompOf cname) →
      s ∉ (splitEligible q half cname students).1)
    ∧ (currentIdxOf cname = 0 → s ∈ students → s.active = true →
      s ∈ (splitEligible q half cname students).1) := by
  constructor
  · intro hidx habs hmem
    exact habs ((splitEligible_mem q half cname students s hmem).2 hidx)
  · intro hidx hmem hact
    exact splitEligible_active_mem q half cname (by simp [hidx]) students s hmem hact

/-- C3 (witness): with only 小明 qualified past CSP-S2 in half-season 1,
小红 is excluded from the NOIP eligible list, while for the first-stage
contest CSP-S1 both active students are eligible. -/
theorem claim_C3_witness :
    (0 < currentIdxOf ("NOIP")
      ∧ ssB.name ∉ qualOne 1 (prevCompOf ("NOIP"))
      ∧ ssB ∉ (splitEligible qualOne 1 ("NOIP") [ssA, ssB]).1)
    ∧ (currentIdxOf ("CSP-S1") = 0
      ∧ ssB ∈ [ssA, ssB] ∧ ssB.active = true
      ∧ ssB ∈ (splitEligible qualOne 1 ("CSP-S1") [ssA, ssB]).1) := by
  refine ⟨⟨by decide, by decide, ?_⟩, ⟨by decide, by decide, by decide, ?_⟩⟩
  · exact (claim_C3 qualOne 1 ("NOIP") [ssA, ssB] ssB).1 (by decide) (by decide)
  · exact (claim_C3 qualOne 1 ("CSP-S1") [ssA, ssB] ssB).2 (by decide) (by decide) (by decide)

/-- C4: with a non-empty problem list, non-negative actual scores,
`totalGainCap ≥ 0` and positive total weight, the discrete gains sum exactly
to `⌊totalGainCap⌋`; the deficit is awarded at the index found by the
loop of the source, which is the first index attaining the maximal `actualScore`
(all other entries keep their floored proportional gain). -/
theorem claim_C4 (cap : ℚ) (ps : List GProb)
    (hcap : 0 ≤ cap) (hsc : ∀ p ∈ ps, 0 ≤ p.actualScore)
    (hW : 0 < totalWeightOf ps) :
    (distributeGainsKnowledge cap ps).sum = ⌊cap⌋
    ∧ (distributeGainsKnowledge cap ps).length = ps.length
    ∧ maxScoreIdxOf ps < ps.length
    ∧ (∀ j, j < ps.length → ascoreAt ps j ≤ ascoreAt ps (maxScoreIdxOf ps))
    ∧ (∀ j, j < maxScoreIdxOf ps → ascoreAt ps j < ascoreAt ps (maxScoreIdxOf ps))
    ∧ (∀ j, j ≠ maxScoreIdxOf ps →
        (distributeGainsKnowledge cap ps).get? j = (baseGains cap ps).get? j)
    ∧ (distributeGainsKnowledge cap ps).get? (maxScoreIdxOf ps)
        = some ((baseGains cap ps).getD (maxScoreIdxOf ps) 0
            + (⌊cap⌋ - (baseGains cap ps).sum)) := by
  have hWne : totalWeightOf ps ≠ 0 := ne_of_gt hW
  have hne : ps ≠ [] := by
    intro h; rw [h] at hW; simp [totalWeightOf] at hW
  have hidx := maxScoreIdx_spec ps hne
  have hblen : (baseGains cap ps).length = ps.length := List.length_map _ _
  have hsumle : (baseGains cap ps).sum ≤ ⌊cap⌋ := baseGains_sum_le ps cap hWne
  have hilt : maxScoreIdxOf ps < (baseGains cap ps).length := by
    rw [hblen]; exact hidx.1
  have hdef : distributeGainsKnowledge cap ps
      = (if 0 < ⌊cap⌋ - (baseGains cap ps).sum then
          (baseGains cap ps).set (maxScoreIdxOf ps)
            ((baseGains cap ps).getD (maxScoreIdxOf ps) 0
              + (⌊cap⌋ - (baseGains cap ps).sum))
         else baseGains cap ps) := by
    simp only [distributeGainsKnowledge, if_neg hne, if_neg hWne]
  by_cases hd : 0 < ⌊cap⌋ - (baseGains cap ps).sum
  · rw [hdef, if_pos hd]
    refine ⟨?_, ?_, hidx.1, hidx.2.1, hidx.2.2, ?_, ?_⟩
    · rw [sum_set_getD_add _ _ _ hilt]; ring
    · rw [List.length_set, hblen]
    · intro j hj; exact get?_set_other _ _ _ _ hj
    · exact get?_set_self _ _ _ hilt
  · rw [hdef, if_neg hd]
    have hde : ⌊cap⌋ - (baseGains cap ps).sum = 0 := by omega
    refine ⟨by omega, hblen, hidx.1, hidx.2.1, hidx.2.2, fun j _ => rfl, ?_⟩
    rw [hde, add_zero]
    exact get?_eq_some_getD _ _ hilt

/-- C4 (witness): a cap of 7 over two problems scoring 80 and 100 out of 100
with baseline difficulty 50 yields gains summing to 7; the deficit goes to
the second problem (the unique highest score). -/
theorem claim_C4_witness :
    (0 : ℚ) ≤ 7
    ∧ (∀ p ∈ psW, 0 ≤ p.actualScore)
    ∧ 0 < totalWeightOf psW
    ∧ (distributeGainsKnowledge 7 psW).sum = ⌊(7 : ℚ)⌋
    ∧ (distributeGainsKnowledge 7 psW).length = psW.length := by
  have hw : 0 < totalWeightOf psW := by
    norm_num [totalWeightOf, psW, weightOf]
  have hscW : ∀ p ∈ psW, 0 ≤ p.actualScore := by
    intro p hp
    simp only [psW, List.mem_cons, List.not_mem_nil, or_false] at hp
    rcases hp with rfl | rfl <;> norm_num
  have H := claim_C4 7 psW (by norm_num) hscW hw
  exact ⟨by norm_num, hscW, hw, H.1, H.2.1⟩

/-- C1 (counterexample): in the second half-season with zero eligible
students, `holdCompetitionModalNew` marks the contest completed and appends
the career-ledger record BEFORE signalling the chain-failure ending, so the
ending signal does not precede every ledger write: on the concrete state
`g0` (week 37, boundary 26, no qualifications) the trace for the NOI stage
is `[markCompleted, careerWrite, signalEnding]`, which violates
`endingSignaledFirst`. -/
theorem claim_C1_counterexample :
    ¬ endingSignaledFirst (holdCompetitionModalNew 26 compNOI g0).2 := by
  intro h
  have ht : (holdCompetitionModalNew 26 compNOI g0).2
      = [Act.markCompleted (1, "NOI", 50), Act.careerWrite,
         Act.signalEnding chainFailReason] := by decide
  rcases h 1 Act.careerWrite (by rw [ht]; rfl) (by rfl) with ⟨i, hi, r, hr⟩
  have hi0 : i = 0 := by omega
  rw [hi0, ht] at hr
  simp at hr

/-- C1 (amended): in the second half-season, a zero-eligible or zero-passing
contest does signal the chain-failure ending and short-circuits everything
after it (the signal is the final action), and no reward is ever issued for
such a contest; but the signal is not first: with zero eligible students the
completed-mark and the career-ledger record are written before it (though no
qualification write happens), and with zero passing participants the
qualification-ledger update runs before it (though no career write
happens). -/
theorem claim_C1 (hb : ℕ) (draw : ℕ → ℤ → ℤ → ℤ) (plMult : ℚ)
    (cfg : List ℚ) (states : List StState) (comp : CompDef) (inelig : List SS) (g : Game) :
    (hb < g.week → eligibleFor hb comp g = [] →
      ((holdCompetitionModalNew hb comp g).2.getLast?
          = some (Act.signalEnding chainFailReason)
        ∧ ∀ a ∈ (holdCompetitionModalNew hb comp g).2,
            isRewardAct a = false ∧ isQualWriteAct a = false))
    ∧ (hb < g.week →
        passedCountOf (resultsOf plMult cfg states comp inelig g.province) = 0 →
      ((handleCompetitionResults hb draw plMult cfg states comp inelig g).2.getLast?
          = some (Act.signalEnding chainFailReason)
        ∧ ∀ a ∈ (handleCompetitionResults hb draw plMult cfg states comp inelig g).2,
            isRewardAct a = false ∧ isCareerWriteAct a = false)) := by
  constructor
  · intro hw he
    have hh : (if hb < g.week then 1 else 0) = 1 := if_pos hw
    have htr : (holdCompetitionModalNew hb comp g).2
        = [Act.markCompleted (1, comp.name, comp.week), Act.careerWrite,
           Act.signalEnding chainFailReason] := by
      simp [holdCompetitionModalNew, he, hh]
    rw [htr]
    refine ⟨rfl, ?_⟩
    intro a ha
    fin_cases ha <;> exact ⟨rfl, rfl⟩
  · intro hw hp
    have hh : (if hb < g.week then 1 else 0) = 1 := if_pos hw
    have htr : (handleCompetitionResults hb draw plMult cfg states comp inelig g).2
        = (if currentIdxOf comp.name < 0 then ([] : List Act)
           else [Act.qualWrite 1 comp.name]) ++ [Act.signalEnding chainFailReason] := by
      simp [handleCompetitionResults, hh, hp]
    rw [htr]
    by_cases hc : currentIdxOf comp.name < 0
    · rw [if_pos hc]
      refine ⟨rfl, ?_⟩
      intro a ha
      fin_cases ha <;> exact ⟨rfl, rfl⟩
    · rw [if_neg hc]
      refine ⟨rfl, ?_⟩
      intro a ha
      fin_cases ha <;> exact ⟨rfl, rfl⟩

/-- C1 (witness): the amended statement evaluated on `g0` in the second
half-season: the zero-eligible NOI stage and a zero-passing NOIP contest in
which the only participant scores 0. -/
theorem claim_C1_witness :
    (26 < g0.week ∧ eligibleFor 26 compNOI g0 = []
      ∧ ((holdCompetitionModalNew 26 compNOI g0).2.getLast?
            = some (Act.signalEnding chainFailReason)
        ∧ ∀ a ∈ (holdCompetitionModalNew 26 compNOI g0).2,
            isRewardAct a = false ∧ isQualWriteAct a = false))
    ∧ (26 < g0.week
      ∧ passedCountOf (resultsOf 1 [100] statesZero compNOIP [] g0.province) = 0
      ∧ ((handleCompetitionResults 26 drawLo 1 [100] statesZero compNOIP [] g0).2.getLast?
            = some (Act.signalEnding chainFailReason)
        ∧ ∀ a ∈ (handleCompetitionResults 26 drawLo 1 [100] statesZero compNOIP [] g0).2,
            isRewardAct a = false ∧ isCareerWriteAct a = false)) := by
  have hp : passedCountOf (resultsOf 1 [100] statesZero compNOIP [] g0.province) = 0 := by
    have hns : ("NOIP" : String) ≠ "NOI" := by decide
    norm_num [resultsOf, resultOfState, flaggedExtraOf, extraPressureOf, calculatePassLine,
      getPassRateFor, sortDesc, insertDesc, minScoreOf, passedCountOf, statesZero, compNOIP,
      g0, ssA, medalFor, hns]
  refine ⟨⟨by decide, by decide,
      (claim_C1 26 drawLo 1 [100] statesZero compNOI [] g0).1 (by decide) (by decide)⟩,
    ⟨by decide, hp,
      (claim_C1 26 drawLo 1 [100] statesZero compNOIP [] g0).2 (by decide) hp⟩⟩

/-- C2 (code evaluation at the failing input): `distributeRewards` never
records the funding key — the marking block reads the out-of-scope
`halfBoundary_ui` and the `ReferenceError` is swallowed — so invoking it
twice for the same `(half-season, contest, week)` key issues the funding
twice: on `g0` (week 37, boundary 26) the NOI reward of 30000 is issued by
both calls and the budget rises by 60000, where the claim demands the second
call return zero and leave the budget unchanged.  The last conjunct shows
the key set is structurally never written. -/
theorem claim_C2_code_eval :
    (distributeRewards 26 drawLo g0 resultsOnePass ("NOI")).1 = 30000
    ∧ ((distributeRewards 26 drawLo g0 resultsOnePass ("NOI")).2).fundingIssued
        = g0.fundingIssued
    ∧ (distributeRewards 26 drawLo
        (distributeRewards 26 drawLo g0 resultsOnePass ("NOI")).2
        resultsOnePass ("NOI")).1 = 30000
    ∧ (distributeRewards 26 drawLo
        (distributeRewards 26 drawLo g0 resultsOnePass ("NOI")).2
        resultsOnePass ("NOI")).2.budget = g0.budget + 60000
    ∧ (∀ (hb : ℕ) (draw : ℕ → ℤ → ℤ → ℤ) (g : Game) (rs : List RRes) (c : String),
        ((distributeRewards hb draw g rs c).2).fundingIssued = g.fundingIssued) := by
  refine ⟨by decide, by decide, by decide, by decide, ?_⟩
  intro hb draw g rs c
  simp only [distributeRewards]
  split_ifs <;> rfl

/-- The behaviour the comments of the source document (mark the key after a
positive issuance) satisfies the at-most-once property: once a call has
issued a positive reward, any repeated call for the same
`(half-season, contest, week)` key returns zero and leaves the state —
budget included — unchanged. -/
theorem distributeRewardsIntended_once (hb : ℕ) (draw draw2 : ℕ → ℤ → ℤ → ℤ)
    (g : Game) (rs rs2 : List RRes) (c : String)
    (h : 0 < (distributeRewardsIntended hb draw g rs c).1) :
    distributeRewardsIntended hb draw2 ((distributeRewardsIntended hb draw g rs c).2) rs2 c
      = (0, (distributeRewardsIntended hb draw g rs c).2) := by
  by_cases hk : ((if hb < g.week then 1 else 0 : ℕ), c, g.week) ∈ g.fundingIssued
  · exfalso
    have hz : (distributeRewardsIntended hb draw g rs c).1 = 0 := by
      simp [distributeRewardsIntended, hk]
    rw [hz] at h
    exact lt_irrefl 0 h
  · by_cases hr : 0 < rewardsTotal draw c 0 rs
    · have hg : (distributeRewardsIntended hb draw g rs c).2
          = { g with budget := g.budget + rewardsTotal draw c 0 rs,
                     fundingIssued :=
                       ((if hb < g.week then 1 else 0 : ℕ), c, g.week) :: g.fundingIssued } := by
        simp [distributeRewardsIntended, hk, hr]
      rw [hg]
      simp [distributeRewardsIntended]
    · exfalso
      have hz : (distributeRewardsIntended hb draw g rs c).1 = rewardsTotal draw c 0 rs := by
        simp [distributeRewardsIntended, hk, hr]
      rw [hz] at h
      exact hr h
